import Mathlib

/-!
Verification of the task lifecycle manager of the log_manager repository.

The embedding follows the Go sources:
- `pkg/utils/goroutine/goroutine.go` : `GoroutineManager`, `taskWrapper`,
  `NewGoroutineManager`, `AddTask`, `RemoveTask`, `StartAll`, `StopAll`,
  `Start`, `Stop`.
- the `wait.go` companion file of the same package : `WaitError`,
  `WaitCancelWithTimeout`, `WaitGroupWithTimeout`.

Modelling choices:
- A `context.Context` produced by `context.WithCancel` is modelled by a
  boolean cancel flag; a child context derived from the parent is cancelled
  exactly when its own flag is set or the parent's flag is set
  (`effCancelled`).
- A `sync.WaitGroup` is modelled by its counter (a `Nat`).  `Add(1)` is
  `+ 1`, `Done` is `- 1`, and "the wait group is drained" is "the counter
  is zero".
- `taskWrapper` values live behind pointers in Go; a registry overwrite by
  `AddTask` leaves the old wrapper alive through the closures of already
  running goroutines.  We model pointers by allocating a fresh numeric id
  per wrapper (`nextId`); `wrappers` holds every wrapper ever allocated and
  `registry` maps task names to wrapper ids.
- Task bodies are opaque: a body is identified by a number.  Launching a
  goroutine appends `(wrapper id, body id)` to a spawn log; a body
  returning is a separate environment step (`bodyReturn`) that performs the
  two deferred `Done` calls.
- Blocking waits are given a time oracle: `dt : Option Nat` is the instant
  at which the awaited signal fires (`none` when it never fires).  A call
  that never returns is modelled by the result `none`.
-/

/-- Tri-state result of the bounded wait primitives (`WaitError` in Go). -/
inductive WaitError where
  | waitSuccess
  | waitTimeout
  | waitInvalidParam
deriving DecidableEq, Repr

/-- Go `WaitCancelWithTimeout(ctx, timeout)`: wait for context cancellation with
a timeout.  `ct` is the instant the context's Done channel closes (`none` if
it never does), `timeout` is the duration.  Result `none` models a call that
never returns (negative timeout, never cancelled). -/
def waitCancelWithTimeout (ct : Option Nat) (timeout : Int) : Option WaitError :=
  if timeout < 0 then
    match ct with
    | some _ => some WaitError.waitSuccess
    | none => none
  else
    match ct with
    | some c => if (c : Int) ≤ timeout then some WaitError.waitSuccess
                else some WaitError.waitTimeout
    | none => some WaitError.waitTimeout

/-- Go `WaitGroupWithTimeout(wg, timeout)`: wait for a wait group to drain with
a timeout.  `wgPresent` is `wg != nil`; `dt` is the instant the group's
counter reaches zero (`none` if it never does).  This coarse model resolves
the done-versus-timer select in favour of completion whenever the drain
instant is within the bound; `waitGroupWithTimeoutSelect` below refines it
with the watcher goroutine's scheduling latency and an explicit tie oracle,
exposing the race the source leaves open. -/
def waitGroupWithTimeout (wgPresent : Bool) (dt : Option Nat) (timeout : Int) :
    Option WaitError :=
  if wgPresent = false then some WaitError.waitInvalidParam
  else if timeout < 0 then
    match dt with
    | some _ => some WaitError.waitSuccess
    | none => none
  else
    match dt with
    | some d => if (d : Int) ≤ timeout then some WaitError.waitSuccess
                else some WaitError.waitTimeout
    | none => some WaitError.waitTimeout

/-- Refined model of Go `WaitGroupWithTimeout` for a live wait group, with
the select race explicit.  For a non-negative timeout the source spawns a
watcher goroutine (`go func() { defer close(done); wg.Wait() }()`) and
selects between `done` and `time.After(timeout)`.  `dt` is the instant the
counter reaches zero (`none` if it never does); the watcher closes `done`
only at instant `dt + lat`, where `lat` is its scheduler-dependent run
latency; the timer channel is ready at instant `timeout`; when both
channels are ready at the same instant the runtime picks either case,
recorded in the oracle `timerFirst`.  For a negative timeout the source
calls `wg.Wait()` directly, with no watcher and no race. -/
def waitGroupWithTimeoutSelect (dt : Option Nat) (lat : Nat)
    (timerFirst : Bool) (timeout : Int) : Option WaitError :=
  if timeout < 0 then
    match dt with
    | some _ => some WaitError.waitSuccess
    | none => none
  else
    match dt with
    | some d =>
        if ((d + lat : Nat) : Int) < timeout then some WaitError.waitSuccess
        else if timeout < ((d + lat : Nat) : Int) then some WaitError.waitTimeout
        else if timerFirst then some WaitError.waitTimeout
        else some WaitError.waitSuccess
    | none => some WaitError.waitTimeout

/-- Association list lookup (first binding wins), the model of a Go map read. -/
def alookup [DecidableEq α] : List (α × β) → α → Option β
  | [], _ => none
  | p :: rest, k => if p.1 = k then some p.2 else alookup rest k

/-- Association list insert/replace, the model of a Go map write. -/
def insertA [DecidableEq α] : List (α × β) → α → β → List (α × β)
  | [], k, v => [(k, v)]
  | p :: rest, k, v => if p.1 = k then (k, v) :: rest else p :: insertA rest k v

/-- Association list erase, the model of Go's `delete(map, key)`. -/
def eraseA [DecidableEq α] : List (α × β) → α → List (α × β)
  | [], _ => []
  | p :: rest, k => if p.1 = k then eraseA rest k else p :: eraseA rest k

/-- Update the (first) binding of a key in place, the model of mutating the
struct behind a pointer stored in a map. -/
def updateA [DecidableEq α] : List (α × β) → α → (β → β) → List (α × β)
  | [], _, _ => []
  | p :: rest, k, f => if p.1 = k then (p.1, f p.2) :: rest else p :: updateA rest k f

/-- Go `taskWrapper`: per-task child cancel flag, child wait-group counter, and
the registered body (opaque id). -/
structure TaskWrapper where
  childCancelled : Bool
  childCount : Nat
  task : Nat
deriving DecidableEq, Repr

/-- Go `GoroutineManager` state.  `parentCancelled` is the root context's flag,
`parentCount` the parent wait-group counter (the global active count),
`wrappers` every wrapper ever allocated (id, wrapper), `registry` the task
map (name, wrapper id), `spawns` the log of launched goroutines
(wrapper id, body id). -/
structure GMState where
  parentCancelled : Bool
  parentCount : Nat
  nextId : Nat
  wrappers : List (Nat × TaskWrapper)
  registry : List (String × Nat)
  spawns : List (Nat × Nat)
deriving DecidableEq, Repr

/-- Placeholder wrapper returned when dereferencing an id not in `wrappers`;
in Go a registry entry is always a live pointer, so reachable states never
hit this default (see `WF.regSub`). -/
def defaultWrap : TaskWrapper := ⟨false, 0, 0⟩

/-- Dereference a wrapper id. -/
def getWrapper (s : GMState) (wid : Nat) : TaskWrapper :=
  (alookup s.wrappers wid).getD defaultWrap

/-- Whether the child context of wrapper `wid` is cancelled: its own cancel
flag is set, or the parent context is cancelled (child contexts are derived
from the parent by `context.WithCancel`). -/
def effCancelled (s : GMState) (wid : Nat) : Bool :=
  s.parentCancelled || (getWrapper s wid).childCancelled

/-- Errors returned by the manager's methods. -/
inductive GoErr where
  | notFound
  | timedOut
deriving DecidableEq, Repr

/-- Go `NewGoroutineManager()`: fresh root context, empty registry, zero counts. -/
def newGoroutineManager : GMState :=
  { parentCancelled := false
    parentCount := 0
    nextId := 0
    wrappers := []
    registry := []
    spawns := [] }

/-- Go `AddTask(name, task)`: allocate a fresh wrapper with a child context
derived from the parent and a zero child wait group, and bind `name` to it
in the registry (replacing any previous binding). -/
def addTask (s : GMState) (name : String) (task : Nat) : GMState :=
  { s with
    wrappers := (s.nextId, ⟨false, 0, task⟩) :: s.wrappers
    registry := insertA s.registry name s.nextId
    nextId := s.nextId + 1 }

/-- Increment a wrapper's child wait-group counter (`childWG.Add(1)`). -/
def incChild (w : TaskWrapper) : TaskWrapper := { w with childCount := w.childCount + 1 }

/-- Decrement a wrapper's child wait-group counter (`childWG.Done()`). -/
def decChild (w : TaskWrapper) : TaskWrapper := { w with childCount := w.childCount - 1 }

/-- Set a wrapper's child cancel flag (`childCancel()`). -/
def cancelWrap (w : TaskWrapper) : TaskWrapper := { w with childCancelled := true }

/-- The common body of `Start` and of one `StartAll` iteration:
`parentWG.Add(1)`, `childWG.Add(1)`, then launch `go t.task(t.childCtx)`,
recorded in the spawn log. -/
def startOne (s : GMState) (wid : Nat) : GMState :=
  { s with
    parentCount := s.parentCount + 1
    wrappers := updateA s.wrappers wid incChild
    spawns := s.spawns ++ [(wid, (getWrapper s wid).task)] }

/-- Go `Start(name)`: not-found error if `name` is unregistered, otherwise
increment both counters and launch one execution of the body. -/
def start (s : GMState) (name : String) : GMState × Option GoErr :=
  match alookup s.registry name with
  | none => (s, some GoErr.notFound)
  | some wid => (startOne s wid, none)

/-- Iteration of `StartAll` over a list of registry entries. -/
def startAllAux (s : GMState) : List (String × Nat) → GMState
  | [] => s
  | q :: rest => startAllAux (startOne s q.2) rest

/-- Go `StartAll()`: perform the `Start` increments and launch for every
registered task. -/
def startAll (s : GMState) : GMState :=
  startAllAux s s.registry

/-- Cancel the child context of wrapper `wid` (`t.childCancel()`). -/
def cancelChild (s : GMState) (wid : Nat) : GMState :=
  { s with wrappers := updateA s.wrappers wid cancelWrap }

/-- Go `Stop(name, timeout)`: if `name` is registered, cancel its child context
and wait on its child wait group with the timeout; a non-success wait yields
a timeout error.  An unregistered name is a no-op returning nil.  The second
component is `none` when the call never returns. -/
def stop (s : GMState) (name : String) (timeout : Int) (dt : Option Nat) :
    GMState × Option (Option GoErr) :=
  match alookup s.registry name with
  | none => (s, some none)
  | some wid =>
    match waitGroupWithTimeout true dt timeout with
    | none => (cancelChild s wid, none)
    | some WaitError.waitSuccess => (cancelChild s wid, some none)
    | some _ => (cancelChild s wid, some (some GoErr.timedOut))

/-- Go `RemoveTask(name, timeout)`: like `Stop`, but on a successful wait the
registry entry is deleted. -/
def removeTask (s : GMState) (name : String) (timeout : Int) (dt : Option Nat) :
    GMState × Option (Option GoErr) :=
  match alookup s.registry name with
  | none => (s, some none)
  | some wid =>
    match waitGroupWithTimeout true dt timeout with
    | none => (cancelChild s wid, none)
    | some WaitError.waitSuccess =>
        ({ cancelChild s wid with registry := eraseA s.registry name }, some none)
    | some _ => (cancelChild s wid, some (some GoErr.timedOut))

/-- Go `StopAll(timeout)`: cancel the parent context and wait on the parent
wait group with the timeout. -/
def stopAll (s : GMState) (timeout : Int) (dt : Option Nat) :
    GMState × Option (Option GoErr) :=
  match waitGroupWithTimeout true dt timeout with
  | none => ({ s with parentCancelled := true }, none)
  | some WaitError.waitSuccess => ({ s with parentCancelled := true }, some none)
  | some _ => ({ s with parentCancelled := true }, some (some GoErr.timedOut))

/-- Environment step: a goroutine launched for wrapper `wid` returns, and the
deferred `childWG.Done(); parentWG.Done()` pair runs. -/
def bodyReturn (s : GMState) (wid : Nat) : GMState :=
  { s with
    parentCount := s.parentCount - 1
    wrappers := updateA s.wrappers wid decChild }

/-- Sum of the child wait-group counters of every wrapper ever allocated. -/
def sumChild : List (Nat × TaskWrapper) → Nat
  | [] => 0
  | p :: rest => p.2.childCount + sumChild rest

/-- Sum of the running counts of the handles currently in the registry. -/
def registrySum (s : GMState) : Nat :=
  (s.registry.map (fun q => (getWrapper s q.2).childCount)).sum

/-- One transition of the manager: any method invocation (with arbitrary
arguments and wait oracle), or a running body returning. -/
inductive Step : GMState → GMState → Prop where
  | addT (s : GMState) (name : String) (task : Nat) : Step s (addTask s name task)
  | startT (s : GMState) (name : String) : Step s (start s name).1
  | startAllT (s : GMState) : Step s (startAll s)
  | stopT (s : GMState) (name : String) (timeout : Int) (dt : Option Nat) :
      Step s (stop s name timeout dt).1
  | stopAllT (s : GMState) (timeout : Int) (dt : Option Nat) :
      Step s (stopAll s timeout dt).1
  | removeT (s : GMState) (name : String) (timeout : Int) (dt : Option Nat) :
      Step s (removeTask s name timeout dt).1
  | bodyRet (s : GMState) (wid : Nat) (w : TaskWrapper)
      (h1 : alookup s.wrappers wid = some w) (h2 : 0 < w.childCount) :
      Step s (bodyReturn s wid)

/-- States reachable from a fresh manager by manager calls and body returns. -/
inductive Reachable : GMState → Prop where
  | init : Reachable newGoroutineManager
  | step {s s' : GMState} : Reachable s → Step s s' → Reachable s'

/-! Helper lemmas about the association list operations. -/

theorem alookup_insertA_self [DecidableEq α] (l : List (α × β)) (k : α) (v : β) :
    alookup (insertA l k v) k = some v := by
  induction l with
  | nil => simp [insertA, alookup]
  | cons p rest ih =>
    by_cases h : p.1 = k
    · simp [insertA, h, alookup]
    · simp [insertA, h, alookup, ih]

theorem alookup_insertA_ne [DecidableEq α] (l : List (α × β)) (k k' : α) (v : β)
    (h : k' ≠ k) : alookup (insertA l k v) k' = alookup l k' := by
  induction l with
  | nil => simp [insertA, alookup, Ne.symm h]
  | cons p rest ih =>
    by_cases hp : p.1 = k
    · subst hp
      simp [insertA, alookup, h, Ne.symm h]
    · by_cases hp' : p.1 = k'
      · simp [insertA, alookup, hp, hp', h]
      · simp [insertA, alookup, hp, hp', ih]

theorem alookup_updateA_self [DecidableEq α] (l : List (α × β)) (k : α) (f : β → β) :
    alookup (updateA l k f) k = (alookup l k).map f := by
  induction l with
  | nil => simp [updateA, alookup]
  | cons p rest ih =>
    by_cases h : p.1 = k
    · simp [updateA, h, alookup]
    · simp [updateA, h, alookup, ih]

theorem alookup_updateA_ne [DecidableEq α] (l : List (α × β)) (k k' : α) (f : β → β)
    (h : k' ≠ k) : alookup (updateA l k f) k' = alookup l k' := by
  induction l with
  | nil => simp [updateA, alookup]
  | cons p rest ih =>
    by_cases hp : p.1 = k
    · subst hp
      simp [updateA, alookup, Ne.symm h]
    · by_cases hp' : p.1 = k'
      · simp [updateA, alookup, hp, hp', h]
      · simp [updateA, alookup, hp, hp', ih]

theorem alookup_eraseA_self [DecidableEq α] (l : List (α × β)) (k : α) :
    alookup (eraseA l k) k = none := by
  induction l with
  | nil => simp [eraseA, alookup]
  | cons p rest ih =>
    by_cases h : p.1 = k
    · simp [eraseA, h, ih]
    · simp [eraseA, alookup, h, ih]

theorem alookup_eraseA_ne [DecidableEq α] (l : List (α × β)) (k k' : α)
    (h : k' ≠ k) : alookup (eraseA l k) k' = alookup l k' := by
  induction l with
  | nil => simp [eraseA]
  | cons p rest ih =>
    by_cases hp : p.1 = k
    · subst hp
      simp [eraseA, alookup, Ne.symm h, ih]
    · simp [eraseA, alookup, hp, ih]

theorem updateA_not_found [DecidableEq α] (l : List (α × β)) (k : α) (f : β → β)
    (h : alookup l k = none) : updateA l k f = l := by
  induction l with
  | nil => simp [updateA]
  | cons p rest ih =>
    by_cases hp : p.1 = k
    · simp [alookup, hp] at h
    · simp [alookup, hp] at h
      simp [updateA, hp, ih h]

theorem mem_insertA [DecidableEq α] {l : List (α × β)} {k : α} {v : β} {q : α × β}
    (h : q ∈ insertA l k v) : q = (k, v) ∨ q ∈ l := by
  induction l with
  | nil => simpa [insertA] using h
  | cons p rest ih =>
    by_cases hp : p.1 = k
    · simp [insertA, hp] at h
      rcases h with h | h
      · exact Or.inl h
      · exact Or.inr (List.mem_cons_of_mem _ h)
    · simp [insertA, hp] at h
      rcases h with h | h
      · exact Or.inr (by simp [h])
      · rcases ih h with h' | h'
        · exact Or.inl h'
        · exact Or.inr (List.mem_cons_of_mem _ h')

theorem mem_eraseA [DecidableEq α] {l : List (α × β)} {k : α} {q : α × β}
    (h : q ∈ eraseA l k) : q ∈ l := by
  induction l with
  | nil => simpa [eraseA] using h
  | cons p rest ih =>
    by_cases hp : p.1 = k
    · simp [eraseA, hp] at h
      exact List.mem_cons_of_mem _ (ih h)
    · simp [eraseA, hp] at h
      rcases h with h | h
      · simp [h]
      · exact List.mem_cons_of_mem _ (ih h)

theorem fst_mem_updateA [DecidableEq α] {l : List (α × β)} {k : α} {f : β → β}
    {q : α × β} (h : q ∈ updateA l k f) : ∃ v, (q.1, v) ∈ l := by
  induction l with
  | nil => simpa [updateA] using h
  | cons p rest ih =>
    by_cases hp : p.1 = k
    · subst hp
      simp [updateA] at h
      rcases h with h | h
      · exact ⟨p.2, by simp [h]⟩
      · exact ⟨q.2, List.mem_cons_of_mem _ (by simpa using h)⟩
    · simp [updateA, hp] at h
      rcases h with h | h
      · exact ⟨q.2, by simp [h]⟩
      · rcases ih h with ⟨v, hv⟩
        exact ⟨v, List.mem_cons_of_mem _ hv⟩

theorem sumChild_updateA_incChild (l : List (Nat × TaskWrapper)) (k : Nat)
    (w : TaskWrapper) (h : alookup l k = some w) :
    sumChild (updateA l k incChild) = sumChild l + 1 := by
  induction l with
  | nil => simp [alookup] at h
  | cons p rest ih =>
    by_cases hp : p.1 = k
    · simp [updateA, hp, sumChild, incChild]
      omega
    · simp [alookup, hp] at h
      simp [updateA, hp, sumChild, ih h]
      omega

theorem childCount_le_sumChild (l : List (Nat × TaskWrapper)) (k : Nat)
    (w : TaskWrapper) (h : alookup l k = some w) : w.childCount ≤ sumChild l := by
  induction l with
  | nil => simp [alookup] at h
  | cons p rest ih =>
    by_cases hp : p.1 = k
    · simp [alookup, hp] at h
      subst h
      simp [sumChild]
    · simp [alookup, hp] at h
      have := ih h
      simp [sumChild]
      omega

theorem sumChild_updateA_decChild (l : List (Nat × TaskWrapper)) (k : Nat)
    (w : TaskWrapper) (h : alookup l k = some w) (h2 : 0 < w.childCount) :
    sumChild (updateA l k decChild) = sumChild l - 1 := by
  induction l with
  | nil => simp [alookup] at h
  | cons p rest ih =>
    by_cases hp : p.1 = k
    · simp [alookup, hp] at h
      subst h
      simp [updateA, hp, sumChild, decChild]
      omega
    · simp [alookup, hp] at h
      have hle := childCount_le_sumChild rest k w h
      simp [updateA, hp, sumChild, ih h]
      omega

theorem sumChild_updateA_cancelWrap (l : List (Nat × TaskWrapper)) (k : Nat) :
    sumChild (updateA l k cancelWrap) = sumChild l := by
  induction l with
  | nil => simp [updateA]
  | cons p rest ih =>
    by_cases hp : p.1 = k
    · simp [updateA, hp, sumChild, cancelWrap]
    · simp [updateA, hp, sumChild, ih]

theorem alookup_mem [DecidableEq α] {l : List (α × β)} {k : α} {v : β}
    (h : alookup l k = some v) : (k, v) ∈ l := by
  induction l with
  | nil => simp [alookup] at h
  | cons p rest ih =>
    by_cases hp : p.1 = k
    · subst hp
      simp [alookup] at h
      simp [← h]
    · simp [alookup, hp] at h
      exact List.mem_cons_of_mem _ (ih h)

theorem alookup_updateA_isSome [DecidableEq α] (l : List (α × β)) (k k' : α)
    (f : β → β) : (alookup (updateA l k f) k').isSome = (alookup l k').isSome := by
  by_cases h : k' = k
  · subst h
    simp [alookup_updateA_self]
  · simp [alookup_updateA_ne l k k' f h]

theorem alookup_eraseA_some [DecidableEq α] {l : List (α × β)} {k k' : α} {v : β}
    (h : alookup (eraseA l k) k' = some v) : alookup l k' = some v := by
  by_cases hk : k' = k
  · subst hk
    simp [alookup_eraseA_self] at h
  · rw [alookup_eraseA_ne l k k' hk] at h
    exact h

/-- Structural well-formedness of a manager state: allocated ids are below
the allocation counter, registry entries point at allocated wrappers,
distinct names point at distinct wrappers, and the parent wait-group counter
equals the sum of all child wait-group counters. -/
structure WF (s : GMState) : Prop where
  wLt : ∀ p ∈ s.wrappers, p.1 < s.nextId
  regLt : ∀ q ∈ s.registry, q.2 < s.nextId
  regSub : ∀ q ∈ s.registry, (alookup s.wrappers q.2).isSome
  regInj : ∀ a b wa wb, alookup s.registry a = some wa →
      alookup s.registry b = some wb → a ≠ b → wa ≠ wb
  sumEq : s.parentCount = sumChild s.wrappers

theorem wf_new : WF newGoroutineManager := by
  constructor <;> simp [newGoroutineManager, sumChild, alookup]

theorem wf_addTask (s : GMState) (name : String) (task : Nat) (hwf : WF s) :
    WF (addTask s name task) := by
  constructor
  · intro p hp
    simp [addTask] at hp ⊢
    rcases hp with hp | hp
    · subst hp
      exact Nat.lt_succ_self _
    · have := hwf.wLt p hp
      omega
  · intro q hq
    simp [addTask] at hq ⊢
    rcases mem_insertA hq with h | h
    · simp [h]
    · have := hwf.regLt q h
      omega
  · intro q hq
    simp [addTask] at hq ⊢
    rcases mem_insertA hq with h | h
    · simp [h, alookup]
    · have hlt := hwf.regLt q h
      have hne : s.nextId ≠ q.2 := by omega
      simp [alookup, hne]
      exact hwf.regSub q h
  · intro a b wa wb ha hb hab
    simp [addTask] at ha hb
    by_cases hA : a = name
    · subst hA
      rw [alookup_insertA_self] at ha
      rw [alookup_insertA_ne _ _ _ _ (Ne.symm hab)] at hb
      have hwb := hwf.regLt _ (alookup_mem hb)
      simp at ha hwb
      omega
    · rw [alookup_insertA_ne _ _ _ _ hA] at ha
      by_cases hB : b = name
      · subst hB
        rw [alookup_insertA_self] at hb
        have hwa := hwf.regLt _ (alookup_mem ha)
        simp at hb hwa
        omega
      · rw [alookup_insertA_ne _ _ _ _ hB] at hb
        exact hwf.regInj a b wa wb ha hb hab
  · simp [addTask, sumChild]
    exact hwf.sumEq

theorem wf_startOne (s : GMState) (wid : Nat)
    (hwf : WF s) (hsome : (alookup s.wrappers wid).isSome) :
    WF (startOne s wid) := by
  rcases Option.isSome_iff_exists.mp hsome with ⟨w, hw⟩
  constructor
  · intro p hp
    simp [startOne] at hp ⊢
    rcases fst_mem_updateA hp with ⟨v, hv⟩
    have := hwf.wLt (p.1, v) hv
    simpa using this
  · intro q hq
    simp [startOne] at hq ⊢
    exact hwf.regLt q hq
  · intro q hq
    simp [startOne] at hq ⊢
    rw [alookup_updateA_isSome]
    exact hwf.regSub q hq
  · intro a b wa wb ha hb hab
    simp [startOne] at ha hb
    exact hwf.regInj a b wa wb ha hb hab
  · simp [startOne]
    rw [sumChild_updateA_incChild s.wrappers wid w hw]
    simp [hwf.sumEq]

theorem wf_startAllAux (s : GMState) (L : List (String × Nat)) (hwf : WF s)
    (hL : ∀ q ∈ L, (alookup s.wrappers q.2).isSome) :
    WF (startAllAux s L) := by
  induction L generalizing s with
  | nil => simpa [startAllAux] using hwf
  | cons q rest ih =>
    simp [startAllAux]
    apply ih
    · exact wf_startOne s q.2 hwf (hL q (by simp))
    · intro q' hq'
      simp [startOne]
      rw [alookup_updateA_isSome]
      exact hL q' (List.mem_cons_of_mem _ hq')

theorem wf_startAll (s : GMState) (hwf : WF s) : WF (startAll s) :=
  wf_startAllAux s s.registry hwf hwf.regSub

theorem wf_start (s : GMState) (name : String) (hwf : WF s) :
    WF (start s name).1 := by
  unfold start
  cases hlook : alookup s.registry name with
  | none => simpa using hwf
  | some wid =>
    simp
    exact wf_startOne s wid hwf (hwf.regSub _ (alookup_mem hlook))

theorem wf_cancelChild (s : GMState) (wid : Nat) (hwf : WF s) :
    WF (cancelChild s wid) := by
  constructor
  · intro p hp
    simp [cancelChild] at hp ⊢
    rcases fst_mem_updateA hp with ⟨v, hv⟩
    have := hwf.wLt (p.1, v) hv
    simpa using this
  · intro q hq
    simp [cancelChild] at hq ⊢
    exact hwf.regLt q hq
  · intro q hq
    simp [cancelChild] at hq ⊢
    rw [alookup_updateA_isSome]
    exact hwf.regSub q hq
  · intro a b wa wb ha hb hab
    simp [cancelChild] at ha hb
    exact hwf.regInj a b wa wb ha hb hab
  · simp [cancelChild]
    rw [sumChild_updateA_cancelWrap]
    exact hwf.sumEq

theorem wf_stop (s : GMState) (name : String) (timeout : Int) (dt : Option Nat)
    (hwf : WF s) : WF (stop s name timeout dt).1 := by
  unfold stop
  cases hlook : alookup s.registry name with
  | none => simpa using hwf
  | some wid =>
    cases hw : waitGroupWithTimeout true dt timeout with
    | none => simpa using wf_cancelChild s wid hwf
    | some r =>
      cases r <;> simpa using wf_cancelChild s wid hwf

theorem wf_removeTask (s : GMState) (name : String) (timeout : Int)
    (dt : Option Nat) (hwf : WF s) : WF (removeTask s name timeout dt).1 := by
  unfold removeTask
  cases hlook : alookup s.registry name with
  | none => simpa using hwf
  | some wid =>
    cases hw : waitGroupWithTimeout true dt timeout with
    | none => simpa using wf_cancelChild s wid hwf
    | some r =>
      cases r
      · simp
        have hwc := wf_cancelChild s wid hwf
        constructor
        · intro p hp
          exact hwc.wLt p (by simpa [cancelChild] using hp)
        · intro q hq
          simp [cancelChild] at hq ⊢
          exact hwf.regLt q (mem_eraseA hq)
        · intro q hq
          simp [cancelChild] at hq ⊢
          rw [alookup_updateA_isSome]
          exact hwf.regSub q (mem_eraseA hq)
        · intro a b wa wb ha hb hab
          simp [cancelChild] at ha hb
          exact hwf.regInj a b wa wb (alookup_eraseA_some ha) (alookup_eraseA_some hb) hab
        · have := hwc.sumEq
          simpa [cancelChild] using this
      · simpa using wf_cancelChild s wid hwf
      · simpa using wf_cancelChild s wid hwf

theorem wf_stopAll (s : GMState) (timeout : Int) (dt : Option Nat) (hwf : WF s) :
    WF (stopAll s timeout dt).1 := by
  have hcore : WF { s with parentCancelled := true } := by
    constructor
    · exact hwf.wLt
    · exact hwf.regLt
    · exact hwf.regSub
    · exact hwf.regInj
    · exact hwf.sumEq
  unfold stopAll
  cases hw : waitGroupWithTimeout true dt timeout with
  | none => simpa using hcore
  | some r => cases r <;> simpa using hcore

theorem wf_bodyReturn (s : GMState) (wid : Nat) (w : TaskWrapper)
    (h1 : alookup s.wrappers wid = some w) (h2 : 0 < w.childCount) (hwf : WF s) :
    WF (bodyReturn s wid) := by
  constructor
  · intro p hp
    simp [bodyReturn] at hp ⊢
    rcases fst_mem_updateA hp with ⟨v, hv⟩
    have := hwf.wLt (p.1, v) hv
    simpa using this
  · intro q hq
    simp [bodyReturn] at hq ⊢
    exact hwf.regLt q hq
  · intro q hq
    simp [bodyReturn] at hq ⊢
    rw [alookup_updateA_isSome]
    exact hwf.regSub q hq
  · intro a b wa wb ha hb hab
    simp [bodyReturn] at ha hb
    exact hwf.regInj a b wa wb ha hb hab
  · simp [bodyReturn]
    rw [sumChild_updateA_decChild s.wrappers wid w h1 h2]
    simp [hwf.sumEq]

theorem wf_step {s s' : GMState} (hwf : WF s) (h : Step s s') : WF s' := by
  cases h with
  | addT name task => exact wf_addTask s name task hwf
  | startT name => exact wf_start s name hwf
  | startAllT => exact wf_startAll s hwf
  | stopT name timeout dt => exact wf_stop s name timeout dt hwf
  | stopAllT timeout dt => exact wf_stopAll s timeout dt hwf
  | removeT name timeout dt => exact wf_removeTask s name timeout dt hwf
  | bodyRet wid w h1 h2 => exact wf_bodyReturn s wid w h1 h2 hwf

theorem wf_of_reachable {s : GMState} (h : Reachable s) : WF s := by
  induction h with
  | init => exact wf_new
  | step _ hstep ih => exact wf_step ih hstep

theorem alookup_none_of_lt (l : List (Nat × TaskWrapper)) (n : Nat)
    (h : ∀ p ∈ l, p.1 < n) : alookup l n = none := by
  induction l with
  | nil => simp [alookup]
  | cons p rest ih =>
    have hp := h p (by simp)
    have hne : p.1 ≠ n := by omega
    simp [alookup, hne]
    exact ih (fun q hq => h q (List.mem_cons_of_mem _ hq))

theorem getD_updateA_congr {γ : Type} (l : List (Nat × TaskWrapper)) (k k' : Nat)
    (f : TaskWrapper → TaskWrapper) (g : TaskWrapper → γ)
    (hf : ∀ w, g (f w) = g w) :
    g ((alookup (updateA l k f) k').getD defaultWrap) =
      g ((alookup l k').getD defaultWrap) := by
  by_cases h : k' = k
  · subst h
    rw [alookup_updateA_self]
    cases alookup l k' <;> simp [hf]
  · rw [alookup_updateA_ne _ _ _ _ h]

theorem updateA_map_fst [DecidableEq α] (l : List (α × β)) (k : α) (f : β → β) :
    (updateA l k f).map Prod.fst = l.map Prod.fst := by
  induction l with
  | nil => simp [updateA]
  | cons p rest ih =>
    by_cases h : p.1 = k
    · simp [updateA, h]
    · simp [updateA, h, ih]

/-- Relation between the two drain models: the coarse
`waitGroupWithTimeout` is the refined select model at watcher latency zero
with ties resolved for the `done` channel. -/
theorem waitGroupWithTimeout_eq_select (dt : Option Nat) (timeout : Int) :
    waitGroupWithTimeout true dt timeout =
      waitGroupWithTimeoutSelect dt 0 false timeout := by
  by_cases ht : timeout < 0
  · cases dt <;> simp [waitGroupWithTimeout, waitGroupWithTimeoutSelect, ht]
  · cases dt with
    | none => simp [waitGroupWithTimeout, waitGroupWithTimeoutSelect, ht]
    | some d =>
      simp [waitGroupWithTimeout, waitGroupWithTimeoutSelect, ht]
      split_ifs <;> first | rfl | omega

/-- C7 counterexample: the drain primitive does not satisfy the claimed
zero-timeout biconditional.  A wait group already drained at call time
(`dt = some 0`) still returns the timeout outcome when the freshly spawned
watcher has not yet run by the instant the zero timer fires (latency 1), or
when the select tie goes to the timer; so "returns success iff the counter
was already at zero" fails at timeout 0. -/
theorem c7_zero_timeout_counterexample :
    waitGroupWithTimeoutSelect (some 0) 1 false 0 = some WaitError.waitTimeout ∧
    waitGroupWithTimeoutSelect (some 0) 0 true 0 = some WaitError.waitTimeout ∧
    ¬ (waitGroupWithTimeoutSelect (some 0) 1 false 0 = some WaitError.waitSuccess ↔
        (some 0 : Option Nat) = some 0) := by
  decide

/-- C7 (amended): for both bounded-wait primitives a negative timeout
blocks indefinitely and can only ever produce the success outcome, never
the timeout outcome, under every watcher schedule.  A timeout of zero
returns at once; the cancellation primitive succeeds exactly when the scope
was already cancelled at call time (its Done channel is closed at the
select's poll); the drain primitive succeeds only if the counter was
already at zero at call time and is guaranteed to time out whenever the
counter was still positive or never drains - but an already drained group
may itself time out, the watcher goroutine racing the zero timer (see the
counterexample). -/
theorem c7_timeout_conventions (ct dt : Option Nat) (lat : Nat)
    (timerFirst : Bool) (t : Int) :
    (t < 0 → waitCancelWithTimeout ct t ≠ some WaitError.waitTimeout ∧
      waitGroupWithTimeoutSelect dt lat timerFirst t ≠ some WaitError.waitTimeout) ∧
    (t < 0 → ∀ r, waitCancelWithTimeout ct t = some r →
      r = WaitError.waitSuccess) ∧
    (t < 0 → ∀ r, waitGroupWithTimeoutSelect dt lat timerFirst t = some r →
      r = WaitError.waitSuccess) ∧
    (waitCancelWithTimeout ct 0).isSome = true ∧
    (waitGroupWithTimeoutSelect dt lat timerFirst 0).isSome = true ∧
    (waitCancelWithTimeout ct 0 = some WaitError.waitSuccess ↔ ct = some 0) ∧
    (waitGroupWithTimeoutSelect dt lat timerFirst 0 = some WaitError.waitSuccess →
      dt = some 0) ∧
    (∀ d, dt = some d → 0 < d →
      waitGroupWithTimeoutSelect dt lat timerFirst 0 = some WaitError.waitTimeout) ∧
    (dt = none →
      waitGroupWithTimeoutSelect dt lat timerFirst 0 = some WaitError.waitTimeout) := by
  refine ⟨?_, ?_, ?_, ?_, ?_, ?_, ?_, ?_, ?_⟩
  · intro ht
    constructor
    · cases ct <;> simp [waitCancelWithTimeout, ht]
    · cases dt <;> simp [waitGroupWithTimeoutSelect, ht]
  · intro ht r hr
    cases ct with
    | none => simp [waitCancelWithTimeout, ht] at hr
    | some c =>
      simp [waitCancelWithTimeout, ht] at hr
      exact hr.symm
  · intro ht r hr
    cases dt with
    | none => simp [waitGroupWithTimeoutSelect, ht] at hr
    | some d =>
      simp [waitGroupWithTimeoutSelect, ht] at hr
      exact hr.symm
  · cases ct with
    | none => simp [waitCancelWithTimeout]
    | some c =>
      simp [waitCancelWithTimeout]
      split <;> simp
  · cases dt with
    | none => simp [waitGroupWithTimeoutSelect]
    | some d =>
      simp [waitGroupWithTimeoutSelect]
      split_ifs <;> simp
  · cases ct with
    | none => simp [waitCancelWithTimeout]
    | some c => simp [waitCancelWithTimeout]
  · intro h
    cases hdt : dt with
    | none =>
      rw [hdt] at h
      simp [waitGroupWithTimeoutSelect] at h
    | some d =>
      rw [hdt] at h
      by_cases hd : d = 0
      · simp [hd]
      · have h1 : ¬ ((d : Int) + (lat : Int) < 0) := by omega
        have h2 : (0 : Int) < (d : Int) + (lat : Int) := by omega
        simp [waitGroupWithTimeoutSelect, h1, h2] at h
  · intro d hdt hd
    subst hdt
    have h1 : ¬ ((d : Int) + (lat : Int) < 0) := by omega
    have h2 : (0 : Int) < (d : Int) + (lat : Int) := by omega
    simp [waitGroupWithTimeoutSelect, h1, h2]
  · intro hdt
    subst hdt
    simp [waitGroupWithTimeoutSelect]

/-- Witness for C7's amended theorem at concrete inputs: negative timeouts
only succeed, and an undrained group at timeout zero is guaranteed the
timeout outcome. -/
theorem c7_timeout_conventions_witness :
    waitCancelWithTimeout (some 5) (-1) ≠ some WaitError.waitTimeout ∧
    waitGroupWithTimeoutSelect none 0 false (-1) ≠ some WaitError.waitTimeout ∧
    waitGroupWithTimeoutSelect (some 3) 2 false 0 = some WaitError.waitTimeout := by
  have h1 := c7_timeout_conventions (some 5) none 0 false (-1)
  have h2 := c7_timeout_conventions (some 5) (some 3) 2 false 0
  exact ⟨(h1.1 (by decide)).1, (h1.1 (by decide)).2,
    h2.2.2.2.2.2.2.2.1 3 rfl (by decide)⟩

/-- C4 counterexample: on an empty manager, `Stop("missing", ...)` returns
nil (no error), not a not-found error, contradicting the claim that `Stop`
on an unregistered name fails like `Start` does. -/
theorem c4_stop_missing_counterexample :
    (stop newGoroutineManager "missing" 5 (some 0)).2 = some none ∧
    (some (none : Option GoErr)) ≠ some (some GoErr.notFound) := by
  constructor
  · rfl
  · decide

/-- C4 (amended): `Stop` on an unregistered name is a silent no-op that
returns nil and changes nothing; only `Start` reports a not-found error for
an unregistered name. -/
theorem c4_stop_missing_noop (s : GMState) (name : String) (timeout : Int)
    (dt : Option Nat) (h : alookup s.registry name = none) :
    stop s name timeout dt = (s, some none) ∧
    start s name = (s, some GoErr.notFound) := by
  constructor
  · simp [stop, h]
  · simp [start, h]

/-- Witness for C4's amended theorem on an empty manager. -/
theorem c4_stop_missing_noop_witness :
    stop newGoroutineManager "x" 3 none = (newGoroutineManager, some none) ∧
    start newGoroutineManager "x" = (newGoroutineManager, some GoErr.notFound) :=
  c4_stop_missing_noop newGoroutineManager "x" 3 none (by rfl)

/-- C5: `RemoveTask` removes the registry entry exactly when the bounded
wait on the handle's child wait group succeeds; on timeout it returns a
timeout error and leaves the registry mapping as it was; on an unregistered
name it is an error-free no-op.  (The invalid-parameter outcome of the wait
primitive cannot occur, because the manager always passes a live wait
group.) -/
theorem c5_removeTask (s : GMState) (name : String) (timeout : Int)
    (dt : Option Nat) :
    (alookup s.registry name = none → removeTask s name timeout dt = (s, some none)) ∧
    (∀ wid, alookup s.registry name = some wid →
      waitGroupWithTimeout true dt timeout ≠ some WaitError.waitInvalidParam ∧
      (waitGroupWithTimeout true dt timeout = some WaitError.waitSuccess →
        (removeTask s name timeout dt).2 = some none ∧
        alookup (removeTask s name timeout dt).1.registry name = none ∧
        ∀ n, n ≠ name →
          alookup (removeTask s name timeout dt).1.registry n = alookup s.registry n) ∧
      (waitGroupWithTimeout true dt timeout = some WaitError.waitTimeout →
        (removeTask s name timeout dt).2 = some (some GoErr.timedOut) ∧
        (removeTask s name timeout dt).1.registry = s.registry)) := by
  constructor
  · intro h
    simp [removeTask, h]
  · intro wid hwid
    refine ⟨?_, ?_, ?_⟩
    · by_cases ht : timeout < 0 <;> cases dt <;>
        simp [waitGroupWithTimeout, ht] <;> split <;> simp
    · intro hw
      refine ⟨?_, ?_, ?_⟩
      · simp [removeTask, hwid, hw]
      · simp [removeTask, hwid, hw, alookup_eraseA_self]
      · intro n hn
        simp [removeTask, hwid, hw, alookup_eraseA_ne s.registry name n hn]
    · intro hw
      refine ⟨?_, ?_⟩
      · simp [removeTask, hwid, hw]
      · simp [removeTask, hwid, hw, cancelChild]

/-- Witness for C5: a one-task manager, removal with an immediate drain and
with a drain that never comes. -/
theorem c5_removeTask_witness :
    removeTask newGoroutineManager "x" 5 (some 0) = (newGoroutineManager, some none) ∧
    alookup (removeTask (addTask newGoroutineManager "a" 7) "a" 5 (some 0)).1.registry "a" = none ∧
    (removeTask (addTask newGoroutineManager "a" 7) "a" 5 none).1.registry =
      (addTask newGoroutineManager "a" 7).registry := by
  have h1 := (c5_removeTask newGoroutineManager "x" 5 (some 0)).1 (by rfl)
  have h2 := (c5_removeTask (addTask newGoroutineManager "a" 7) "a" 5 (some 0)).2 0 (by rfl)
  have h3 := (c5_removeTask (addTask newGoroutineManager "a" 7) "a" 5 none).2 0 (by rfl)
  exact ⟨h1, (h2.2.1 (by rfl)).2.1, (h3.2.2 (by rfl)).2⟩

theorem stop_state_cases (s : GMState) (name : String) (timeout : Int)
    (dt : Option Nat) :
    (alookup s.registry name = none ∧ (stop s name timeout dt).1 = s) ∨
    ∃ wid, alookup s.registry name = some wid ∧
      (stop s name timeout dt).1 = cancelChild s wid := by
  unfold stop
  cases h : alookup s.registry name with
  | none => simp
  | some wid =>
    right
    refine ⟨wid, rfl, ?_⟩
    cases hw : waitGroupWithTimeout true dt timeout with
    | none => simp
    | some r => cases r <;> simp

/-- C10: `Stop` never modifies the registry in any outcome: the name-to-
handle mapping, every wrapper's identity, body and running count, the
global count, the allocation counter, the root cancel flag and the spawn
log are all exactly as before the call; only the target handle's child
cancel flag can change. -/
theorem c10_stop_frame (s : GMState) (name : String) (timeout : Int)
    (dt : Option Nat) :
    (stop s name timeout dt).1.registry = s.registry ∧
    (stop s name timeout dt).1.wrappers.map Prod.fst = s.wrappers.map Prod.fst ∧
    (∀ wid, (getWrapper (stop s name timeout dt).1 wid).task =
      (getWrapper s wid).task) ∧
    (∀ wid, (getWrapper (stop s name timeout dt).1 wid).childCount =
      (getWrapper s wid).childCount) ∧
    (stop s name timeout dt).1.parentCount = s.parentCount ∧
    (stop s name timeout dt).1.nextId = s.nextId ∧
    (stop s name timeout dt).1.parentCancelled = s.parentCancelled ∧
    (stop s name timeout dt).1.spawns = s.spawns := by
  rcases stop_state_cases s name timeout dt with ⟨_, h⟩ | ⟨wid, _, h⟩
  · rw [h]
    exact ⟨rfl, rfl, fun _ => rfl, fun _ => rfl, rfl, rfl, rfl, rfl⟩
  · rw [h]
    refine ⟨rfl, ?_, ?_, ?_, rfl, rfl, rfl, rfl⟩
    · exact updateA_map_fst s.wrappers wid cancelWrap
    · intro wid'
      exact getD_updateA_congr s.wrappers wid wid' cancelWrap TaskWrapper.task
        (fun _ => rfl)
    · intro wid'
      exact getD_updateA_congr s.wrappers wid wid' cancelWrap TaskWrapper.childCount
        (fun _ => rfl)

theorem getWrapper_of_alookup {s : GMState} {wid : Nat} {w : TaskWrapper}
    (h : alookup s.wrappers wid = some w) : getWrapper s wid = w := by
  simp [getWrapper, h]

theorem getWrapper_startOne_self {s : GMState} {wid : Nat} {w : TaskWrapper}
    (h : alookup s.wrappers wid = some w) :
    getWrapper (startOne s wid) wid = incChild w := by
  simp [getWrapper, startOne, alookup_updateA_self, h]

theorem getWrapper_bodyReturn_self {s : GMState} {wid : Nat} {w : TaskWrapper}
    (h : alookup s.wrappers wid = some w) :
    getWrapper (bodyReturn s wid) wid = decChild w := by
  simp [getWrapper, bodyReturn, alookup_updateA_self, h]

/-- C3: `Start(name)` on an unregistered name returns a not-found error and
changes nothing (no goroutine launched); on a registered name it returns no
error, increments the parent counter and the handle's child counter by one,
and launches exactly one execution of the registered body under that
handle; when a launched body returns, both counters are decremented
unconditionally. -/
theorem c3_start (s : GMState) (hs : Reachable s) (name : String) :
    (alookup s.registry name = none →
      start s name = (s, some GoErr.notFound)) ∧
    (∀ wid, alookup s.registry name = some wid →
      (start s name).2 = none ∧
      (start s name).1.parentCount = s.parentCount + 1 ∧
      (getWrapper (start s name).1 wid).childCount =
        (getWrapper s wid).childCount + 1 ∧
      (start s name).1.spawns = s.spawns ++ [(wid, (getWrapper s wid).task)]) ∧
    (∀ wid w, alookup s.wrappers wid = some w → 0 < w.childCount →
      (bodyReturn s wid).parentCount = s.parentCount - 1 ∧
      (getWrapper (bodyReturn s wid) wid).childCount = w.childCount - 1) := by
  refine ⟨?_, ?_, ?_⟩
  · intro h
    simp [start, h]
  · intro wid hwid
    have hsub := (wf_of_reachable hs).regSub (name, wid) (alookup_mem hwid)
    rcases Option.isSome_iff_exists.mp hsub with ⟨w, hw⟩
    refine ⟨?_, ?_, ?_, ?_⟩
    · simp [start, hwid]
    · simp [start, hwid, startOne]
    · simp [start, hwid, getWrapper_startOne_self hw, getWrapper_of_alookup hw,
        incChild]
    · simp [start, hwid, startOne]
  · intro wid w hw hpos
    refine ⟨?_, ?_⟩
    · simp [bodyReturn]
    · simp [getWrapper_bodyReturn_self hw, decChild]

/-- Witness for C3: `Start("missing")` on an empty manager, and `Start("a")`
then a body return on a one-task manager. -/
theorem c3_start_witness :
    start newGoroutineManager "missing" = (newGoroutineManager, some GoErr.notFound) ∧
    (start (addTask newGoroutineManager "a" 7) "a").1.parentCount = 1 ∧
    (bodyReturn (start (addTask newGoroutineManager "a" 7) "a").1 0).parentCount = 0 := by
  have h0 := (c3_start newGoroutineManager Reachable.init "missing").1 (by rfl)
  have hr1 : Reachable (addTask newGoroutineManager "a" 7) :=
    Reachable.step Reachable.init (Step.addT _ "a" 7)
  have h1 := ((c3_start _ hr1 "a").2.1 0 (by rfl)).2.1
  have hr2 : Reachable (start (addTask newGoroutineManager "a" 7) "a").1 :=
    Reachable.step hr1 (Step.startT _ "a")
  have h2 := ((c3_start _ hr2 "a").2.2 0 ⟨false, 1, 7⟩ (by decide) (by decide)).1
  refine ⟨h0, ?_, ?_⟩
  · rw [h1]
    rfl
  · rw [h2, h1]
    rfl

/-- C6: `AddTask(name, body)` registers `body` under `name` with a brand new
handle: a fresh never-cancelled child scope derived from the root and a zero
running count.  It launches nothing, leaves every other registry entry
untouched, and on an overwrite the old handle's wrapper is left exactly as
it was: its scope is not cancelled and its running body keeps running. -/
theorem c6_addTask (s : GMState) (hs : Reachable s) (name : String) (body : Nat) :
    alookup (addTask s name body).registry name = some s.nextId ∧
    getWrapper (addTask s name body) s.nextId = ⟨false, 0, body⟩ ∧
    effCancelled (addTask s name body) s.nextId = s.parentCancelled ∧
    (addTask s name body).parentCount = s.parentCount ∧
    (addTask s name body).spawns = s.spawns ∧
    (∀ n, n ≠ name →
      alookup (addTask s name body).registry n = alookup s.registry n) ∧
    (∀ wid, alookup s.registry name = some wid →
      wid ≠ s.nextId ∧ getWrapper (addTask s name body) wid = getWrapper s wid) := by
  refine ⟨?_, ?_, ?_, ?_, ?_, ?_, ?_⟩
  · simp [addTask, alookup_insertA_self]
  · simp [getWrapper, addTask, alookup]
  · simp [effCancelled, getWrapper, addTask, alookup]
  · rfl
  · rfl
  · intro n hn
    simp [addTask, alookup_insertA_ne s.registry name n _ hn]
  · intro wid hwid
    have hlt := (wf_of_reachable hs).regLt (name, wid) (alookup_mem hwid)
    simp at hlt
    have hne : wid ≠ s.nextId := by omega
    refine ⟨hne, ?_⟩
    have hcons : s.nextId ≠ wid := by omega
    simp [getWrapper, addTask, alookup, hcons]

/-- Witness for C6: overwriting a registered (and started) task leaves the
old wrapper running and uncancelled. -/
theorem c6_addTask_witness :
    alookup (addTask (start (addTask newGoroutineManager "a" 7) "a").1 "a" 8).registry "a" = some 1 ∧
    getWrapper (addTask (start (addTask newGoroutineManager "a" 7) "a").1 "a" 8) 0 =
      getWrapper (start (addTask newGoroutineManager "a" 7) "a").1 0 := by
  have hr : Reachable (start (addTask newGoroutineManager "a" 7) "a").1 :=
    Reachable.step (Reachable.step Reachable.init (Step.addT _ "a" 7)) (Step.startT _ "a")
  have h := c6_addTask _ hr "a" 8
  exact ⟨h.1, (h.2.2.2.2.2.2 0 (by rfl)).2⟩

theorem stopAll_state (s : GMState) (timeout : Int) (dt : Option Nat) :
    (stopAll s timeout dt).1 = { s with parentCancelled := true } := by
  unfold stopAll
  cases hw : waitGroupWithTimeout true dt timeout with
  | none => rfl
  | some r => cases r <;> rfl

/-- C1: `StopAll(timeout)` cancels the root scope, which transitively
cancels every handle's child scope; for a non-negative timeout it returns a
timeout error exactly when the parent wait group does not drain within the
bound, and nil exactly when it does; with a negative timeout it returns nil
whenever the drain eventually happens, i.e. once every running body has
returned. -/
theorem c1_stopAll (s : GMState) (timeout : Int) (dt : Option Nat) :
    (stopAll s timeout dt).1.parentCancelled = true ∧
    (∀ wid, effCancelled (stopAll s timeout dt).1 wid = true) ∧
    (0 ≤ timeout →
      ((stopAll s timeout dt).2 = some (some GoErr.timedOut) ↔
        ∀ d, dt = some d → timeout < (d : Int))) ∧
    (0 ≤ timeout →
      ((stopAll s timeout dt).2 = some none ↔
        ∃ d, dt = some d ∧ (d : Int) ≤ timeout)) ∧
    (timeout < 0 → ∀ d, dt = some d → (stopAll s timeout dt).2 = some none) := by
  refine ⟨?_, ?_, ?_, ?_, ?_⟩
  · rw [stopAll_state]
  · intro wid
    rw [stopAll_state]
    simp [effCancelled]
  · intro ht
    have ht' : ¬ timeout < 0 := by omega
    cases dt with
    | none => simp [stopAll, waitGroupWithTimeout, ht']
    | some d =>
      by_cases hd : (d : Int) ≤ timeout
      · simp [stopAll, waitGroupWithTimeout, ht', hd]
      · simp [stopAll, waitGroupWithTimeout, ht', hd]
        omega
  · intro ht
    have ht' : ¬ timeout < 0 := by omega
    cases dt with
    | none => simp [stopAll, waitGroupWithTimeout, ht']
    | some d =>
      by_cases hd : (d : Int) ≤ timeout
      · simp [stopAll, waitGroupWithTimeout, ht', hd]
      · simp [stopAll, waitGroupWithTimeout, ht', hd]
  · intro ht d hd
    subst hd
    simp [stopAll, waitGroupWithTimeout, ht]

/-- Witness for C1 at concrete inputs: a wait that can never drain times
out under a finite bound, and a negative bound returns nil once the drain
happens. -/
theorem c1_stopAll_witness :
    ((stopAll newGoroutineManager 5 none).2 = some (some GoErr.timedOut) ↔
      ∀ d, (none : Option Nat) = some d → (5 : Int) < (d : Int)) ∧
    (stopAll newGoroutineManager (-1) (some 3)).2 = some none := by
  have h := c1_stopAll newGoroutineManager 5 none
  have h2 := c1_stopAll newGoroutineManager (-1) (some 3)
  exact ⟨h.2.2.1 (by decide), h2.2.2.2.2 (by decide) 3 rfl⟩

theorem removeTask_state_cases (s : GMState) (name : String) (timeout : Int)
    (dt : Option Nat) :
    (alookup s.registry name = none ∧ (removeTask s name timeout dt).1 = s) ∨
    ∃ wid, alookup s.registry name = some wid ∧
      ((removeTask s name timeout dt).1 = cancelChild s wid ∨
       (removeTask s name timeout dt).1 =
         { cancelChild s wid with registry := eraseA s.registry name }) := by
  unfold removeTask
  cases h : alookup s.registry name with
  | none => simp
  | some wid =>
    right
    refine ⟨wid, rfl, ?_⟩
    cases hw : waitGroupWithTimeout true dt timeout with
    | none => simp
    | some r => cases r <;> simp

theorem start_state_cases (s : GMState) (name : String) :
    (start s name).1 = s ∨ ∃ k, (start s name).1 = startOne s k := by
  unfold start
  cases alookup s.registry name with
  | none => exact Or.inl rfl
  | some wid => exact Or.inr ⟨wid, rfl⟩

theorem effCancelled_addTask (s : GMState) (hwf : WF s) (name : String)
    (body wid : Nat) :
    effCancelled (addTask s name body) wid = effCancelled s wid := by
  by_cases h : wid = s.nextId
  · subst h
    have hnone : alookup s.wrappers s.nextId = none :=
      alookup_none_of_lt s.wrappers s.nextId hwf.wLt
    simp [effCancelled, getWrapper, addTask, alookup, hnone, defaultWrap]
  · have hne : s.nextId ≠ wid := Ne.symm h
    simp [effCancelled, getWrapper, addTask, alookup, hne]

theorem effCancelled_startOne (s : GMState) (k wid : Nat) :
    effCancelled (startOne s k) wid = effCancelled s wid := by
  show (s.parentCancelled ||
      TaskWrapper.childCancelled
        ((alookup (updateA s.wrappers k incChild) wid).getD defaultWrap)) =
    (s.parentCancelled ||
      TaskWrapper.childCancelled ((alookup s.wrappers wid).getD defaultWrap))
  rw [getD_updateA_congr s.wrappers k wid incChild TaskWrapper.childCancelled
    (fun _ => rfl)]

theorem effCancelled_bodyReturn (s : GMState) (k wid : Nat) :
    effCancelled (bodyReturn s k) wid = effCancelled s wid := by
  show (s.parentCancelled ||
      TaskWrapper.childCancelled
        ((alookup (updateA s.wrappers k decChild) wid).getD defaultWrap)) =
    (s.parentCancelled ||
      TaskWrapper.childCancelled ((alookup s.wrappers wid).getD defaultWrap))
  rw [getD_updateA_congr s.wrappers k wid decChild TaskWrapper.childCancelled
    (fun _ => rfl)]

theorem effCancelled_startAllAux (s : GMState) (L : List (String × Nat))
    (wid : Nat) :
    effCancelled (startAllAux s L) wid = effCancelled s wid := by
  induction L generalizing s with
  | nil => rfl
  | cons q rest ih =>
    rw [startAllAux, ih]
    exact effCancelled_startOne s q.2 wid

theorem effCancelled_cancelChild_ne (s : GMState) (k wid : Nat) (h : wid ≠ k) :
    effCancelled (cancelChild s k) wid = effCancelled s wid := by
  show (s.parentCancelled ||
      TaskWrapper.childCancelled
        ((alookup (updateA s.wrappers k cancelWrap) wid).getD defaultWrap)) =
    (s.parentCancelled ||
      TaskWrapper.childCancelled ((alookup s.wrappers wid).getD defaultWrap))
  rw [alookup_updateA_ne _ _ _ _ h]

theorem effCancelled_cancelChild_mono (s : GMState) (k wid : Nat)
    (h : effCancelled s wid = true) : effCancelled (cancelChild s k) wid = true := by
  simp only [effCancelled, Bool.or_eq_true] at h ⊢
  rcases h with h | h
  · exact Or.inl h
  · right
    by_cases hk : wid = k
    · subst hk
      show TaskWrapper.childCancelled
        ((alookup (updateA s.wrappers wid cancelWrap) wid).getD defaultWrap) = true
      rw [alookup_updateA_self]
      cases hl : alookup s.wrappers wid with
      | none =>
        rw [getWrapper, hl] at h
        simp [defaultWrap] at h
      | some w => simp [cancelWrap]
    · show TaskWrapper.childCancelled
        ((alookup (updateA s.wrappers k cancelWrap) wid).getD defaultWrap) = true
      rw [alookup_updateA_ne _ _ _ _ hk]
      exact h

theorem effCancelled_step_mono {s s' : GMState} (hwf : WF s) (hstep : Step s s')
    (wid : Nat) (h : effCancelled s wid = true) : effCancelled s' wid = true := by
  cases hstep with
  | addT name body =>
    rw [effCancelled_addTask s hwf name body wid]
    exact h
  | startT name =>
    rcases start_state_cases s name with heq | ⟨k, heq⟩
    · rw [heq]
      exact h
    · rw [heq, effCancelled_startOne]
      exact h
  | startAllT =>
    rw [startAll, effCancelled_startAllAux]
    exact h
  | stopT name timeout dt =>
    rcases stop_state_cases s name timeout dt with ⟨_, heq⟩ | ⟨k, _, heq⟩
    · rw [heq]
      exact h
    · rw [heq]
      exact effCancelled_cancelChild_mono s k wid h
  | stopAllT timeout dt =>
    rw [stopAll_state]
    simp [effCancelled]
  | removeT name timeout dt =>
    rcases removeTask_state_cases s name timeout dt with ⟨_, heq⟩ | ⟨k, _, heq | heq⟩
    · rw [heq]
      exact h
    · rw [heq]
      exact effCancelled_cancelChild_mono s k wid h
    · rw [heq]
      exact effCancelled_cancelChild_mono s k wid h
  | bodyRet k w h1 h2 =>
    rw [effCancelled_bodyReturn]
    exact h

/-- C2: cancellation is one-directional, transitive and permanent.  After
`StopAll` every handle's scope is cancelled (root cancellation propagates);
no manager operation or body return ever un-cancels a cancelled scope; and
for two distinct registered names, cancelling one task's scope via `Stop`
or `RemoveTask` leaves the other task's scope, the root flag, and the other
task's running count untouched. -/
theorem c2_cancellation (s : GMState) (hs : Reachable s) :
    (∀ timeout dt wid, effCancelled (stopAll s timeout dt).1 wid = true) ∧
    (∀ s', Step s s' → ∀ wid, effCancelled s wid = true →
      effCancelled s' wid = true) ∧
    (∀ nameA nameB wa wb timeout dt, nameA ≠ nameB →
      alookup s.registry nameA = some wa → alookup s.registry nameB = some wb →
      effCancelled (stop s nameA timeout dt).1 wb = effCancelled s wb ∧
      (stop s nameA timeout dt).1.parentCancelled = s.parentCancelled ∧
      (getWrapper (stop s nameA timeout dt).1 wb).childCount =
        (getWrapper s wb).childCount ∧
      effCancelled (removeTask s nameA timeout dt).1 wb = effCancelled s wb ∧
      (getWrapper (removeTask s nameA timeout dt).1 wb).childCount =
        (getWrapper s wb).childCount) := by
  have hwf := wf_of_reachable hs
  refine ⟨?_, ?_, ?_⟩
  · intro timeout dt wid
    rw [stopAll_state]
    simp [effCancelled]
  · intro s' hstep wid h
    exact effCancelled_step_mono hwf hstep wid h
  · intro nameA nameB wa wb timeout dt hAB hA hB
    have hne : wb ≠ wa := hwf.regInj nameB nameA wb wa hB hA (Ne.symm hAB)
    have hstop : (stop s nameA timeout dt).1 = cancelChild s wa := by
      rcases stop_state_cases s nameA timeout dt with ⟨hn, _⟩ | ⟨k, hk, heq⟩
      · rw [hA] at hn
        cases hn
      · rw [hA] at hk
        cases hk
        exact heq
    have hcntS : (getWrapper (cancelChild s wa) wb).childCount =
        (getWrapper s wb).childCount :=
      getD_updateA_congr s.wrappers wa wb cancelWrap TaskWrapper.childCount
        (fun _ => rfl)
    refine ⟨?_, ?_, ?_, ?_, ?_⟩
    · rw [hstop]
      exact effCancelled_cancelChild_ne s wa wb hne
    · rw [hstop]
      rfl
    · rw [hstop]
      exact hcntS
    · rcases removeTask_state_cases s nameA timeout dt with ⟨hn, _⟩ | ⟨k, hk, heq | heq⟩
      · rw [hA] at hn
        cases hn
      · rw [hA] at hk
        cases hk
        rw [heq]
        exact effCancelled_cancelChild_ne s wa wb hne
      · rw [hA] at hk
        cases hk
        rw [heq]
        exact effCancelled_cancelChild_ne s wa wb hne
    · rcases removeTask_state_cases s nameA timeout dt with ⟨hn, _⟩ | ⟨k, hk, heq | heq⟩
      · rw [hA] at hn
        cases hn
      · rw [hA] at hk
        cases hk
        rw [heq]
        exact hcntS
      · rw [hA] at hk
        cases hk
        rw [heq]
        exact hcntS

/-- Witness for C2 on a two-task manager: stopping task "a" (wrapper 0)
leaves task "b"'s scope (wrapper 1) unchanged, and a cancelled scope stays
cancelled across a further `AddTask` step. -/
theorem c2_cancellation_witness :
    effCancelled (stop (addTask (addTask newGoroutineManager "a" 7) "b" 8) "a" 5 none).1 1 =
      effCancelled (addTask (addTask newGoroutineManager "a" 7) "b" 8) 1 ∧
    effCancelled
      (addTask (stop (addTask (addTask newGoroutineManager "a" 7) "b" 8) "a" 5 none).1 "c" 9) 0 = true := by
  have hr2 : Reachable (addTask (addTask newGoroutineManager "a" 7) "b" 8) :=
    Reachable.step (Reachable.step Reachable.init (Step.addT _ "a" 7))
      (Step.addT _ "b" 8)
  have h := c2_cancellation _ hr2
  have hpart := h.2.2 "a" "b" 0 1 5 none (by decide) (by decide) (by decide)
  have hr3 : Reachable (stop (addTask (addTask newGoroutineManager "a" 7) "b" 8) "a" 5 none).1 :=
    Reachable.step hr2 (Step.stopT _ "a" 5 none)
  have h3 := c2_cancellation _ hr3
  have hmono := h3.2.1 _ (Step.addT _ "c" 9) 0 (by decide)
  exact ⟨hpart.1, hmono⟩

/-- The state reached by `AddTask("a"); Start("a"); AddTask("a")`: the
second registration overwrites the running handle, orphaning its wrapper. -/
def c8CexState : GMState :=
  addTask (start (addTask newGoroutineManager "a" 7) "a").1 "a" 8

/-- C8 counterexample: in the reachable state built by `AddTask("a")`,
`Start("a")`, `AddTask("a")`, the global active count is 1 but the sum of
the running counts of the registered handles is 0 - the overwrite discarded
the handle that carries the running body, so the claimed invariant fails. -/
theorem c8_active_count_counterexample :
    Reachable c8CexState ∧ c8CexState.parentCount ≠ registrySum c8CexState := by
  constructor
  · exact Reachable.step (Reachable.step (Reachable.step Reachable.init
      (Step.addT _ "a" 7)) (Step.startT _ "a")) (Step.addT _ "a" 8)
  · decide

/-- C8 (amended): in every reachable state the global active count equals
the sum of the running counts over every wrapper ever allocated, including
wrappers orphaned by an `AddTask` overwrite; it equals the sum over the
currently registered handles only when no overwrite discarded a handle with
a running body. -/
theorem c8_active_count_invariant (s : GMState) (hs : Reachable s) :
    s.parentCount = sumChild s.wrappers :=
  (wf_of_reachable hs).sumEq

/-- Witness for C8's amended theorem at the overwrite state: the active
count 1 is accounted for by the orphaned wrapper. -/
theorem c8_active_count_invariant_witness :
    c8CexState.parentCount = sumChild c8CexState.wrappers :=
  c8_active_count_invariant c8CexState
    (Reachable.step (Reachable.step (Reachable.step Reachable.init
      (Step.addT _ "a" 7)) (Step.startT _ "a")) (Step.addT _ "a" 8))

/-- Atomic actions of a manager method, in source order.  `spawnBody` is
the `go` statement that launches a body; the body itself runs in the new
goroutine, outside the method, so `bodyExec` never occurs in a method
trace. -/
inductive MAction where
  | lockAcq
  | lockRel
  | mkScope
  | regWrite
  | regDelete
  | readReg
  | cancelScope
  | waitBounded
  | spawnBody
  | bodyExec
deriving DecidableEq, Repr

/-- Trace of `AddTask`: `mu.Lock()`; `context.WithCancel`; map write; deferred
`mu.Unlock()` at return. -/
def addTaskTrace : List MAction :=
  [MAction.lockAcq, MAction.mkScope, MAction.regWrite, MAction.lockRel]

/-- Trace of `RemoveTask` (success path): `mu.Lock()`; map read; `childCancel()`;
`WaitGroupWithTimeout`; `delete`; deferred `mu.Unlock()` at return. -/
def removeTaskTrace : List MAction :=
  [MAction.lockAcq, MAction.readReg, MAction.cancelScope, MAction.waitBounded,
   MAction.regDelete, MAction.lockRel]

/-- Trace of `Start`: `mu.Lock()`; map read; `go t.task(...)`; deferred
`mu.Unlock()` at return. -/
def startTrace : List MAction :=
  [MAction.lockAcq, MAction.readReg, MAction.spawnBody, MAction.lockRel]

/-- Trace of `StartAll` (one registry entry): `mu.Lock()`; map iteration;
`go tw.task(...)`; deferred `mu.Unlock()` at return. -/
def startAllTrace : List MAction :=
  [MAction.lockAcq, MAction.readReg, MAction.spawnBody, MAction.lockRel]

/-- Trace of `Stop`: `mu.Lock()`; map read; `childCancel()`; `WaitGroupWithTimeout`;
deferred `mu.Unlock()` at return. -/
def stopTrace : List MAction :=
  [MAction.lockAcq, MAction.readReg, MAction.cancelScope, MAction.waitBounded,
   MAction.lockRel]

/-- Trace of `StopAll`: `mu.Lock()`; `parentCancel()`; `WaitGroupWithTimeout`;
deferred `mu.Unlock()` at return. -/
def stopAllTrace : List MAction :=
  [MAction.lockAcq, MAction.cancelScope, MAction.waitBounded, MAction.lockRel]

/-- Index of the first occurrence of an action in a trace. -/
def firstIdx (tr : List MAction) (a : MAction) : Option Nat :=
  tr.findIdx? (fun x => decide (x = a))

/-- The method releases the mutex strictly before blocking in the bounded
wait. -/
def releasesBeforeWait (tr : List MAction) : Bool :=
  match firstIdx tr MAction.lockRel, firstIdx tr MAction.waitBounded with
  | some i, some j => decide (i < j)
  | _, _ => false

/-- The method blocks in the bounded wait while holding the mutex. -/
def waitsHoldingLock (tr : List MAction) : Bool :=
  match firstIdx tr MAction.lockAcq, firstIdx tr MAction.waitBounded,
      firstIdx tr MAction.lockRel with
  | some i, some j, some k => decide (i < j ∧ j < k)
  | _, _, _ => false

/-- C9 counterexample: none of `Stop`, `StopAll`, `RemoveTask` releases the
mutex before waiting on the bounded primitive - each acquires the lock at
entry and only releases it by `defer` at return, after the wait. -/
theorem c9_lock_counterexample :
    releasesBeforeWait stopTrace = false ∧
    releasesBeforeWait stopAllTrace = false ∧
    releasesBeforeWait removeTaskTrace = false := by
  decide

/-- C9 (amended): `Stop`, `StopAll` and `RemoveTask` hold the mutex for
their whole duration, including while blocked in the bounded wait, so
`AddTask`, `Start` and `StartAll` - which never wait on the bounded
primitive themselves and never run a task body under the lock - can still
be blocked on lock acquisition for up to a concurrent stop operation's full
timeout. -/
theorem c9_lock_discipline :
    waitsHoldingLock stopTrace = true ∧
    waitsHoldingLock stopAllTrace = true ∧
    waitsHoldingLock removeTaskTrace = true ∧
    MAction.waitBounded ∉ addTaskTrace ∧
    MAction.waitBounded ∉ startTrace ∧
    MAction.waitBounded ∉ startAllTrace ∧
    MAction.bodyExec ∉ addTaskTrace ∧
    MAction.bodyExec ∉ removeTaskTrace ∧
    MAction.bodyExec ∉ startTrace ∧
    MAction.bodyExec ∉ startAllTrace ∧
    MAction.bodyExec ∉ stopTrace ∧
    MAction.bodyExec ∉ stopAllTrace := by
  decide
